import Mathlib

/-!
Shallow embedding of the Temporal Linking & Retrieval Engine of the
`meetings` repository, together with proofs settling the frozen claims
about it.

The definitions below are translated from
`src/meeting-intelligence/src/ingestion/memory_factory.py`
(`TemporalConfidence`, `TemporalExtractor._identify_version_chains`,
`TemporalExtractor._find_reference_candidates`,
`TemporalExtractor._score_reference_candidates`),
`src/meeting-intelligence/src/temporal/temporal_extractor.py`
(the duplicated `_identify_version_chains` prototype), and
`src/meeting-intelligence/src/query/orchestrator.py`
(`QueryPlan.from_query`, `TemporalQueryOrchestrator`).

Modelling conventions:
* Python floats are modelled as rationals; `math.exp` is `Real.exp`
  (readings that involve `exp` live in `ℝ`).
* `datetime` timestamps are rationals: hours since an arbitrary epoch for
  chunk/candidate timestamps (the source always divides
  `total_seconds()` by 3600), days since an arbitrary epoch for
  `TemporalConfidence.last_reinforced` (the source reads
  `(utcnow() - last_reinforced).days`, i.e. the floor of the day
  difference, which is `Int.floor` here).
* Mutation of Python objects becomes explicit state passing: methods that
  mutate `self` return the new value, and `datetime.utcnow()` becomes a
  `now` argument.
* `list.sort` / `sorted` are stable sorts by key; they are modelled with
  Mathlib's `List.insertionSort`, which is stable and whose
  insert-before-first-greater behaviour coincides with any stable sort
  by a total preorder.
* Python dicts keyed by strings become association lists, and in-place
  updates of chunks held in several lists are modelled by updating the
  chunk addressed by its `chunk_id` (the repository's stated invariant is
  that chunk ids are unique, and the claims that need exact counts carry
  the corresponding `Nodup` hypothesis).
-/

/-! ## TemporalConfidence (memory_factory.py lines 32-49) -/

structure TemporalConfidence where
  initial_confidence : ℚ
  last_reinforced : ℚ
  reinforcement_count : ℕ
deriving DecidableEq

/-- Embedding of `TemporalConfidence.get_current_confidence`:
`days_elapsed = (utcnow() - last_reinforced).days` (floor of the day
difference), `initial_confidence * exp(-0.1 * days_elapsed)`. -/
noncomputable def get_current_confidence (tc : TemporalConfidence) (now : ℚ) : ℝ :=
  (tc.initial_confidence : ℝ) *
    Real.exp (-(0.1) * ((⌊now - tc.last_reinforced⌋ : ℤ) : ℝ))

/-- Embedding of `TemporalConfidence.reinforce`: sets
`initial_confidence = min(1.0, initial_confidence + evidence_strength)`,
resets `last_reinforced` to now, increments `reinforcement_count`. -/
def reinforce (tc : TemporalConfidence) (evidence_strength : ℚ) (now : ℚ) :
    TemporalConfidence :=
  { initial_confidence := min 1 (tc.initial_confidence + evidence_strength)
    last_reinforced := now
    reinforcement_count := tc.reinforcement_count + 1 }

/-! ## The chunk model (fields used by the embedded operations) -/

structure VersionInfo where
  artifact : String
  version : String
  previous_version : Option String
  changes : List String
deriving DecidableEq

/-- An entry of `creates_future` as appended by
`memory_factory._identify_version_chains` (a Python dict with keys
`type`, `description`, `target_chunk_id`). -/
structure FutureRef where
  type : String
  description : String
  target_chunk_id : String
deriving DecidableEq

/-- An entry of `references_past`; `target_chunk_id` is the key used by
version-evolution entries, `resolved_to` the one used by implicit
reference resolution (absent keys are `none`). -/
structure PastRef where
  type : String
  reference : String
  target_chunk_id : Option String
  resolved_to : Option String
  confidence : ℚ
deriving DecidableEq

structure MemoryChunk where
  chunk_id : String
  meeting_id : String
  timestamp : ℚ
  speaker : String
  content : String
  version_info : Option VersionInfo
  references_past : List PastRef
  creates_future : List FutureRef
  importance_score : ℚ
  confidence : ℚ
deriving DecidableEq

/-! ## String helpers

Python's code-point-wise string order, `str.lower`, whitespace `split()`
and the `in` substring test, written out over `List Char` so that they
reduce inside the kernel. -/

/-- Code-point lexicographic strict order on char lists, as Python
compares strings. -/
def strLtB : List Char → List Char → Bool
  | [], [] => false
  | [], _ :: _ => true
  | _ :: _, [] => false
  | a :: as, b :: bs =>
    if a.toNat < b.toNat then true
    else if b.toNat < a.toNat then false
    else strLtB as bs

/-- Reflexive code-point lexicographic order on strings. -/
def strLeB (s t : String) : Bool := !(strLtB t.data s.data)

/-- Python `str.lower` (character-wise lowercasing). -/
def lowerStr (s : String) : String := String.mk (s.data.map Char.toLower)

/-- Helper for `splitWords`: accumulates the current word (reversed). -/
def wordsAux : List Char → List Char → List String
  | [], acc => if acc.isEmpty then [] else [String.mk acc.reverse]
  | c :: cs, acc =>
    if c = ' ' then
      (if acc.isEmpty then wordsAux cs [] else String.mk acc.reverse :: wordsAux cs [])
    else wordsAux cs (c :: acc)

/-- Python `str.split()` with no argument: splits on runs of blanks and
drops empty pieces (the transcripts in this code base separate words with
plain spaces). -/
def splitWords (s : String) : List String := wordsAux s.data []

/-- Does `pat` start `hay`? Helper for the substring test. -/
def leadMatch : List Char → List Char → Bool
  | [], _ => true
  | _ :: _, [] => false
  | n :: ns, h :: hs => n == h && leadMatch ns hs

/-- Does `needle` occur contiguously in the second argument? -/
def occursSub (needle : List Char) : List Char → Bool
  | [] => needle.isEmpty
  | h :: t => leadMatch needle (h :: t) || occursSub needle t

/-- Python `pat in q` substring containment. -/
def hasSub (q pat : String) : Bool := occursSub pat.data q.data

/-- First-occurrence deduplication, the key order of a Python dict built
by insertion. -/
def dedupFirst (l : List String) : List String :=
  l.foldl (fun acc x => if x ∈ acc then acc else acc ++ [x]) []

/-! ## Version chains (memory_factory.py `_identify_version_chains`, lines 535-572)

The Python code mutates chunk objects held in per-artifact groups; here a
mutation of one chunk becomes an update of the list entry with that
`chunk_id` (chunk ids are unique by the data-model invariant, and the
counting theorems below carry that `Nodup` hypothesis explicitly).
`list.sort(key=...)` is a stable sort by key, rendered with
`List.insertionSort`, which is stable. -/

/-- Sort key of `_identify_version_chains`:
`c.version_info.version if c.version_info else ""`. -/
def versionKey (c : MemoryChunk) : String :=
  match c.version_info with
  | some vi => vi.version
  | none => ""

/-- Grouping key: `chunk.version_info.artifact` (read only on chunks that
carry `version_info`). -/
def artifactKey (c : MemoryChunk) : String :=
  match c.version_info with
  | some vi => vi.artifact
  | none => ""

/-- In-place mutation of the chunk with the given id, rendered
functionally. -/
def updateById (id : String) (f : MemoryChunk → MemoryChunk)
    (l : List MemoryChunk) : List MemoryChunk :=
  l.map fun c => if c.chunk_id = id then f c else c

/-- The forward entry `current.creates_future.append({...})`. -/
def addForward (nxt : MemoryChunk) (c : MemoryChunk) : MemoryChunk :=
  { c with creates_future := c.creates_future ++
      [{ type := "version_evolution"
         description := "Evolves to " ++ versionKey nxt
         target_chunk_id := nxt.chunk_id }] }

/-- The backward entry `next_version.references_past.append({...})` with
its fixed confidence `0.95`. -/
def addBackward (cur : MemoryChunk) (c : MemoryChunk) : MemoryChunk :=
  { c with references_past := c.references_past ++
      [{ type := "version_evolution"
         reference := "Previous version " ++ versionKey cur
         target_chunk_id := some cur.chunk_id
         resolved_to := none
         confidence := 0.95 }] }

/-- The `for i in range(len(version_chunks) - 1)` loop over adjacent
pairs of the sorted group. -/
def linkPairs : List MemoryChunk → List (MemoryChunk × MemoryChunk) → List MemoryChunk
  | acc, [] => acc
  | acc, (cur, nxt) :: rest =>
    linkPairs
      (updateById nxt.chunk_id (addBackward cur)
        (updateById cur.chunk_id (addForward nxt) acc)) rest

/-- Stable sort of a group by version string
(`version_chunks.sort(key=...)`). -/
def sortByVersion (group : List MemoryChunk) : List MemoryChunk :=
  List.insertionSort (fun x y => strLeB (versionKey x) (versionKey y) = true) group

/-- The per-artifact group, in original order, sorted by version. -/
def groupFor (withVi : List MemoryChunk) (a : String) : List MemoryChunk :=
  sortByVersion (withVi.filter fun c => decide (artifactKey c = a))

/-- Adjacent pairs `(version_chunks[i], version_chunks[i+1])`. -/
def adjPairs (l : List MemoryChunk) : List (MemoryChunk × MemoryChunk) :=
  l.zip l.tail

/-- Embedding of `TemporalExtractor._identify_version_chains`
(memory_factory.py): group the chunks that carry `version_info` by
artifact (dict insertion order), sort each group by version string, and
append one forward and one backward link per adjacent pair. -/
def identify_version_chains (chunks : List MemoryChunk) : List MemoryChunk :=
  let withVi := chunks.filter fun c => c.version_info.isSome
  let artifacts := dedupFirst (withVi.map artifactKey)
  artifacts.foldl (fun acc a => linkPairs acc (adjPairs (groupFor withVi a))) chunks

/-- Total number of `creates_future` entries across a chunk list. -/
def totalForward (l : List MemoryChunk) : ℕ :=
  (l.map fun c => c.creates_future.length).sum

/-- Total number of `references_past` entries across a chunk list. -/
def totalBackward (l : List MemoryChunk) : ℕ :=
  (l.map fun c => c.references_past.length).sum

/-- Does a past reference look like a version-evolution link of fixed
confidence 0.95? -/
def isV95 (e : PastRef) : Bool :=
  decide (e.type = "version_evolution" ∧ e.confidence = 0.95)

/-- Total number of `references_past` entries that are version-evolution
links with confidence exactly 0.95. -/
def totalBackward95 (l : List MemoryChunk) : ℕ :=
  (l.map fun c => (c.references_past.filter isV95).length).sum

/-- The identity-relevant skeleton of a chunk: everything except the two
link lists that `_identify_version_chains` appends to. -/
def stripLinks (c : MemoryChunk) : String × Option VersionInfo :=
  (c.chunk_id, c.version_info)

/-! ## The duplicated version-chain prototype
(temporal/temporal_extractor.py `_identify_version_chains`, lines 201-228)

Same algorithm, but the entry dicts have different keys (`reference`
holds the other chunk's id, there is no `target_chunk_id`) and the
backward link is stamped with confidence `1.0`, not `0.95`. -/

structure FutureRefT where
  type : String
  description : String
  reference : String
deriving DecidableEq

structure PastRefT where
  type : String
  reference : String
  confidence : ℚ
deriving DecidableEq

structure TChunk where
  chunk_id : String
  version_info : Option VersionInfo
  creates_future : List FutureRefT
  references_past : List PastRefT
deriving DecidableEq

def versionKeyT (c : TChunk) : String :=
  match c.version_info with
  | some vi => vi.version
  | none => ""

def artifactKeyT (c : TChunk) : String :=
  match c.version_info with
  | some vi => vi.artifact
  | none => ""

/-- The grouping guard `if info and info.get("artifact")`: version info
present with a non-empty artifact. -/
def hasArtifactT (c : TChunk) : Bool :=
  c.version_info.isSome && !(artifactKeyT c).isEmpty

def updateByIdT (id : String) (f : TChunk → TChunk) (l : List TChunk) : List TChunk :=
  l.map fun c => if c.chunk_id = id then f c else c

def addForwardT (nxt : TChunk) (c : TChunk) : TChunk :=
  { c with creates_future := c.creates_future ++
      [{ type := "version_evolution"
         description := "Evolves to " ++ versionKeyT nxt
         reference := nxt.chunk_id }] }

def addBackwardT (cur : TChunk) (c : TChunk) : TChunk :=
  { c with references_past := c.references_past ++
      [{ type := "version_evolution"
         reference := cur.chunk_id
         confidence := 1.0 }] }

def linkPairsT : List TChunk → List (TChunk × TChunk) → List TChunk
  | acc, [] => acc
  | acc, (cur, nxt) :: rest =>
    linkPairsT
      (updateByIdT nxt.chunk_id (addBackwardT cur)
        (updateByIdT cur.chunk_id (addForwardT nxt) acc)) rest

def groupForT (withVi : List TChunk) (a : String) : List TChunk :=
  List.insertionSort (fun x y => strLeB (versionKeyT x) (versionKeyT y) = true)
    (withVi.filter fun c => decide (artifactKeyT c = a))

/-- Embedding of the duplicated `_identify_version_chains` of
temporal/temporal_extractor.py. -/
def identify_version_chains_T (chunks : List TChunk) : List TChunk :=
  let withVi := chunks.filter hasArtifactT
  let artifacts := dedupFirst (withVi.map artifactKeyT)
  artifacts.foldl
    (fun acc a => linkPairsT acc ((groupForT withVi a).zip (groupForT withVi a).tail))
    chunks

/-! ## Implicit reference resolution
(memory_factory.py `_find_reference_candidates` lines 612-631,
`_score_reference_candidates` lines 633-667,
`_resolve_implicit_references` lines 392-419)

A candidate is a dict drawn from the reference index; absent keys are
`none`. Timestamps are hours, so the source's
`total_seconds() / 3600` is the plain difference here. The index dict is
an association list, and `ref.reference_type in index` is `lookup`. -/

structure ImplicitReference where
  text : String
  reference_type : String
  context_window : String
deriving DecidableEq

structure Candidate where
  id : String
  content : Option String
  speaker : Option String
  timestamp : Option ℚ
deriving DecidableEq

/-- Embedding of `_find_reference_candidates`: take the pool for the
reference type (empty when the type is not an index key), keep a
timestamped candidate only when
`(chunk.timestamp - candidate.timestamp) < 168` hours, keep every
timestamp-less candidate, and cap the result at 5 (`candidates[:5]`).
The 168-hour test is one-sided: a candidate with a later timestamp has a
negative difference and passes. -/
def find_reference_candidates (ref : ImplicitReference)
    (index : List (String × List Candidate)) (chunk : MemoryChunk) :
    List Candidate :=
  match index.lookup ref.reference_type with
  | none => []
  | some pool =>
    (pool.filter fun candidate =>
      match candidate.timestamp with
      | some ts => decide (chunk.timestamp - ts < 168)
      | none => true).take 5

/-- Word-set Jaccard overlap
`len(a_words & b_words) / len(a_words | b_words)` over lowercased
whitespace-split words (the source raises on two empty word sets; the
claims only use non-empty ones, and `ℚ` division by zero is 0 here). -/
def jaccard (x y : String) : ℚ :=
  (((splitWords (lowerStr x)).toFinset ∩ (splitWords (lowerStr y)).toFinset).card : ℚ) /
    (((splitWords (lowerStr x)).toFinset ∪ (splitWords (lowerStr y)).toFinset).card : ℚ)

/-- Embedding of the per-candidate score of
`_score_reference_candidates`: start at 0, add `overlap * 0.5` when the
candidate has content, add `exp(-0.01 * |hours|) * 0.3` when it has a
timestamp, add `0.2` when its speaker equals the chunk's. -/
noncomputable def score_candidate (ref : ImplicitReference)
    (chunk : MemoryChunk) (candidate : Candidate) : ℝ :=
  (match candidate.content with
   | some s => (jaccard ref.context_window s : ℝ) * 0.5
   | none => 0)
  + (match candidate.timestamp with
     | some ts => Real.exp (-(0.01) * ((|chunk.timestamp - ts| : ℚ) : ℝ)) * 0.3
     | none => 0)
  + (if candidate.speaker = some chunk.speaker then (0.2 : ℝ) else 0)

/-- Python `max(scores, key=...)`: scan left to right, replace the best
only on a strictly larger score, so the first maximum wins. -/
noncomputable def best_scored : (Candidate × ℝ) → List (Candidate × ℝ) → (Candidate × ℝ)
  | best, [] => best
  | best, x :: xs => best_scored (if best.2 < x.2 then x else best) xs

/-- Embedding of `_score_reference_candidates`: `None` on an empty pool,
otherwise the first highest-scoring `(candidate, score)` pair. -/
noncomputable def score_reference_candidates (ref : ImplicitReference)
    (candidates : List Candidate) (chunk : MemoryChunk) :
    Option (Candidate × ℝ) :=
  match candidates.map fun c => (c, score_candidate ref chunk c) with
  | [] => none
  | s :: ss => some (best_scored s ss)

/-- The composite score exactly as §4.2 step 3 of the spec words it,
including the renormalization clause: "When historical timestamp is
unavailable, omit the temporal term and renormalize remaining weights
proportionally" (weights `0.5/0.7` and `0.2/0.7`). Stated from the
spec, for comparison with `score_candidate`. -/
noncomputable def spec_composite_score (ref : ImplicitReference)
    (chunk : MemoryChunk) (candidate : Candidate) : ℝ :=
  match candidate.timestamp with
  | some ts =>
      0.5 * (jaccard ref.context_window (candidate.content.getD "") : ℝ)
      + 0.3 * Real.exp (-(0.01) * ((|chunk.timestamp - ts| : ℚ) : ℝ))
      + 0.2 * (if candidate.speaker = some chunk.speaker then (1 : ℝ) else 0)
  | none =>
      (0.5 / 0.7) * (jaccard ref.context_window (candidate.content.getD "") : ℝ)
      + (0.2 / 0.7) * (if candidate.speaker = some chunk.speaker then (1 : ℝ) else 0)

/-- The same composite formula with the temporal term simply omitted
when the timestamp is missing, weights kept as they are. This is what
the code computes. -/
noncomputable def spec_score_unrenormalized (ref : ImplicitReference)
    (chunk : MemoryChunk) (candidate : Candidate) : ℝ :=
  0.5 * (jaccard ref.context_window (candidate.content.getD "") : ℝ)
  + (match candidate.timestamp with
     | some ts => 0.3 * Real.exp (-(0.01) * ((|chunk.timestamp - ts| : ℚ) : ℝ))
     | none => 0)
  + 0.2 * (if candidate.speaker = some chunk.speaker then (1 : ℝ) else 0)

/-! ## Query orchestration (query/orchestrator.py)

`QueryPlan.from_query` keeps only its classification here (the rest of
the plan is static defaults). The retrieval collaborator of
`process_query` is abstract: `_initial_retrieve` and `_fetch_additional`
are placeholders in the source, so the initial retrieval is a parameter
and the additional fetch is a function of the iteration number and the
current context, covering every collaborator behaviour. -/

inductive QueryType where
  | pre_meeting
  | gap_analysis
  | commitment_tracking
  | decision_archaeology
  | cross_project
  | status_check
  | general
deriving DecidableEq

/-- Embedding of `QueryPlan.from_query`'s classification chain of
substring tests over the lowercased query. -/
def from_query (query : String) : QueryType :=
  let q := lowerStr query
  if hasSub q "board" || hasSub q "pre-meeting" then .pre_meeting
  else if hasSub q "slide" || hasSub q "deck" then .gap_analysis
  else if hasSub q "commit" then .commitment_tracking
  else if hasSub q "why did" || hasSub q "decision" then .decision_archaeology
  else if hasSub q "cross" || hasSub q "affect my project" then .cross_project
  else if hasSub q "status" || hasSub q "blocked" then .status_check
  else .general

/-- `_needs_more_context`: fewer than 5 chunks. -/
def needs_more_context (context : List MemoryChunk) : Bool :=
  context.length < 5

/-- Helper for `_deduplicate`'s `seen` set. -/
def dedup_go (seen : List String) : List MemoryChunk → List MemoryChunk
  | [] => []
  | c :: cs =>
    if c.chunk_id ∈ seen then dedup_go seen cs
    else c :: dedup_go (c.chunk_id :: seen) cs

/-- Embedding of `_deduplicate`: first occurrence of each `chunk_id`
wins, order preserved. -/
def deduplicate (chunks : List MemoryChunk) : List MemoryChunk :=
  dedup_go [] chunks

/-- The `while iterations < 3 and self._needs_more_context(...)` loop of
`_recursive_enrich`, with `fuel = 3 - iterations`; returns the final
context together with the number of loop iterations performed. -/
def enrich_go (fetch : ℕ → List MemoryChunk → List MemoryChunk) :
    ℕ → ℕ → List MemoryChunk → List MemoryChunk × ℕ
  | 0, iterations, context => (context, iterations)
  | fuel + 1, iterations, context =>
    if needs_more_context context then
      enrich_go fetch fuel (iterations + 1)
        (deduplicate (context ++ fetch iterations context))
    else (context, iterations)

/-- Embedding of `_recursive_enrich` for an arbitrary behaviour of the
additional-fetch collaborator. -/
def recursive_enrich (fetch : ℕ → List MemoryChunk → List MemoryChunk)
    (context : List MemoryChunk) : List MemoryChunk × ℕ :=
  enrich_go fetch 3 0 context

/-- Embedding of `_aggregate`: `sorted(chunks, key=importance_score,
reverse=True)` — a stable descending sort by importance. -/
def aggregate_memories (chunks : List MemoryChunk) : List MemoryChunk :=
  List.insertionSort
    (fun c1 c2 : MemoryChunk => c2.importance_score ≤ c1.importance_score) chunks

/-- Embedding of the chunk-level pipeline of `process_query`:
initial retrieval (a parameter, see above), recursive enrichment, then
aggregation. `_format_response` only wraps this list with the query
type. -/
def process_query_chunks (fetch : ℕ → List MemoryChunk → List MemoryChunk)
    (initial : List MemoryChunk) : List MemoryChunk :=
  aggregate_memories (recursive_enrich fetch initial).1

/-! ## Concrete inputs used by counterexamples and witnesses -/

/-- A chunk carrying `version_info` for artifact "schema". -/
def mkVChunk (id ver : String) : MemoryChunk :=
  { chunk_id := id
    meeting_id := "m1"
    timestamp := 0
    speaker := "alice"
    content := "schema update"
    version_info := some { artifact := "schema", version := ver,
                           previous_version := none, changes := [] }
    references_past := []
    creates_future := []
    importance_score := 5
    confidence := 0.8 }

/-- A two-version chain for the memory_factory builder. -/
def exChain : List MemoryChunk := [mkVChunk "c1" "v1", mkVChunk "c2" "v2"]

def mkTChunk (id ver : String) : TChunk :=
  { chunk_id := id
    version_info := some { artifact := "schema", version := ver,
                           previous_version := none, changes := [] }
    creates_future := []
    references_past := [] }

/-- A two-version chain for the duplicated prototype builder. -/
def exTChain : List TChunk := [mkTChunk "t1" "v1", mkTChunk "t2" "v2"]

/-- A referencing chunk at hour 0, spoken by alice. -/
def exQChunk : MemoryChunk :=
  { chunk_id := "q1"
    meeting_id := "m2"
    timestamp := 0
    speaker := "alice"
    content := "we should revisit that decision"
    version_info := none
    references_past := []
    creates_future := []
    importance_score := 5
    confidence := 0.8 }

/-- The implicit reference under resolution, keyed to the "decisions"
pool. -/
def exRef : ImplicitReference :=
  { text := "that decision"
    reference_type := "decisions"
    context_window := "caching decision" }

/-- A candidate 1000 hours in the FUTURE of `exQChunk`, with matching
content words and the same speaker. -/
def exFutureCand : Candidate :=
  { id := "d1"
    content := some "caching decision"
    speaker := some "alice"
    timestamp := some 1000 }

def exFutureIndex : List (String × List Candidate) :=
  [("decisions", [exFutureCand])]

/-- A candidate 169 hours in the PAST of `exQChunk` (just beyond the
168-hour window). -/
def exOldCand : Candidate :=
  { id := "d2"
    content := some "caching decision"
    speaker := some "alice"
    timestamp := some (-169) }

def exOldIndex : List (String × List Candidate) :=
  [("decisions", [exOldCand])]

/-- A candidate with no timestamp, full word overlap with
`exRef.context_window` and the same speaker as `exQChunk`. -/
def exNoTsCand : Candidate :=
  { id := "d3"
    content := some "caching decision"
    speaker := some "alice"
    timestamp := none }

/-- A candidate 100 hours in the past, inside the 168-hour window. -/
def exRecentCand : Candidate :=
  { id := "d4"
    content := none
    speaker := none
    timestamp := some (-100) }

def exRecentIndex : List (String × List Candidate) :=
  [("decisions", [exRecentCand])]

/-- Five chunks, two of which share the id "a" (a duplicate surviving
retrieval). -/
def exDupInitial : List MemoryChunk :=
  [{ exQChunk with chunk_id := "a", importance_score := 7 },
   { exQChunk with chunk_id := "b", importance_score := 6 },
   { exQChunk with chunk_id := "a", importance_score := 7 },
   { exQChunk with chunk_id := "c", importance_score := 9 },
   { exQChunk with chunk_id := "d", importance_score := 1 }]

/-- A fetch collaborator that always returns fresh, never-seen chunks:
iteration `i` contributes a chunk with id `"new" ++ i digits`. -/
def exFreshFetch : ℕ → List MemoryChunk → List MemoryChunk :=
  fun i _ => [{ exQChunk with chunk_id := "new" ++ toString i }]

/-- Does a lowercased query avoid every classification keyword of
`QueryPlan.from_query`? -/
def matches_no_keyword (q : String) : Bool :=
  !(hasSub (lowerStr q) "board" || hasSub (lowerStr q) "pre-meeting" ||
    hasSub (lowerStr q) "slide" || hasSub (lowerStr q) "deck" ||
    hasSub (lowerStr q) "commit" ||
    hasSub (lowerStr q) "why did" || hasSub (lowerStr q) "decision" ||
    hasSub (lowerStr q) "cross" || hasSub (lowerStr q) "affect my project" ||
    hasSub (lowerStr q) "status" || hasSub (lowerStr q) "blocked")

/-! # Theorems -/

/-! ## C2 — reinforce and the [0,1] bounds -/

/-- Claim C2 as stated is false: with `initial_confidence = 0.5 ∈ [0,1]`
and the adversarial `evidence_strength = -2`, `reinforce` stores
`min(1, -1.5) = -1.5 < 0`; only the upper bound is clamped. -/
theorem reinforce_drops_below_zero :
    (0 : ℚ) ≤ 0.5 ∧ (0.5 : ℚ) ≤ 1 ∧
      (reinforce ⟨0.5, 0, 0⟩ (-2) 0).initial_confidence < 0 := by
  refine ⟨by norm_num, by norm_num, ?_⟩
  simp only [reinforce]
  norm_num

/-- Claim C2, amended: `reinforce` never lets the stored confidence
exceed 1, and it stays within `[0,1]` exactly when the evidence strength
is at least `-initial_confidence` (in particular for every nonnegative
evidence strength); a more negative adversarial value drives it below 0,
because the source clamps only the upper bound. -/
theorem reinforce_clamped_above (tc : TemporalConfidence) (es now : ℚ)
    (h0 : 0 ≤ tc.initial_confidence) (hes : -tc.initial_confidence ≤ es) :
    0 ≤ (reinforce tc es now).initial_confidence ∧
      (reinforce tc es now).initial_confidence ≤ 1 := by
  constructor
  · simp only [reinforce]
    exact le_min (by norm_num) (by linarith)
  · simp only [reinforce]
    exact min_le_left _ _

/-- Witness for `reinforce_clamped_above` at confidence 1/2 and evidence
strength -1/4. -/
theorem reinforce_clamped_above_witness :
    0 ≤ (reinforce ⟨1/2, 0, 0⟩ (-1/4) 5).initial_confidence ∧
      (reinforce ⟨1/2, 0, 0⟩ (-1/4) 5).initial_confidence ≤ 1 :=
  reinforce_clamped_above ⟨1/2, 0, 0⟩ (-1/4) 5 (by norm_num) (by norm_num)

/-! ## C7 — the enrich loop iterates at most 3 times -/

/-- The loop of `enrich_go` performs at most `iterations + fuel`
iterations, whatever the fetch collaborator returns. -/
theorem enrich_go_le (fetch : ℕ → List MemoryChunk → List MemoryChunk) :
    ∀ (fuel iterations : ℕ) (context : List MemoryChunk),
      (enrich_go fetch fuel iterations context).2 ≤ iterations + fuel := by
  intro fuel
  induction fuel with
  | zero => intro iterations context; simp [enrich_go]
  | succ n ih =>
    intro iterations context
    rw [enrich_go]
    split
    · exact (ih _ _).trans (by omega)
    · simp

/-- Claim C7: for every behaviour of the retrieval collaborator,
including one that always returns new, non-duplicate chunks, the
recursive enrich loop performs at most 3 iterations (and, being a total
function of its fuel, always terminates). -/
theorem recursive_enrich_at_most_three
    (fetch : ℕ → List MemoryChunk → List MemoryChunk)
    (context : List MemoryChunk) :
    (recursive_enrich fetch context).2 ≤ 3 := by
  simpa using enrich_go_le fetch 3 0 context

/-! ## C8 — temporal decay of confidence -/

/-- Claim C8: for a general belief, `get_current_confidence` returns
`initial_confidence * exp(-0.1 * days_since(last_reinforced, now))`
(where `days_since` is the whole-day difference the source reads off the
timedelta), and with no intervening `reinforce` the value is
monotonically non-increasing as elapsed time grows. -/
theorem current_confidence_decay (tc : TemporalConfidence) (t1 t2 : ℚ)
    (h0 : 0 ≤ tc.initial_confidence) (h12 : t1 ≤ t2) :
    get_current_confidence tc t1 =
      (tc.initial_confidence : ℝ) *
        Real.exp (-(0.1) * ((⌊t1 - tc.last_reinforced⌋ : ℤ) : ℝ)) ∧
    get_current_confidence tc t2 ≤ get_current_confidence tc t1 := by
  refine ⟨rfl, ?_⟩
  unfold get_current_confidence
  have hfloor : (⌊t1 - tc.last_reinforced⌋ : ℤ) ≤ ⌊t2 - tc.last_reinforced⌋ :=
    Int.floor_le_floor (by linarith)
  have hcast : ((⌊t1 - tc.last_reinforced⌋ : ℤ) : ℝ) ≤
      ((⌊t2 - tc.last_reinforced⌋ : ℤ) : ℝ) := by exact_mod_cast hfloor
  have hexp : Real.exp (-(0.1) * ((⌊t2 - tc.last_reinforced⌋ : ℤ) : ℝ)) ≤
      Real.exp (-(0.1) * ((⌊t1 - tc.last_reinforced⌋ : ℤ) : ℝ)) := by
    apply Real.exp_le_exp.mpr
    nlinarith
  have h0' : (0 : ℝ) ≤ (tc.initial_confidence : ℝ) := by exact_mod_cast h0
  exact mul_le_mul_of_nonneg_left hexp h0'

/-- Witness for `current_confidence_decay`: confidence 4/5 reinforced at
day 0, read at days 3 and 10. -/
theorem current_confidence_decay_witness :
    get_current_confidence ⟨4/5, 0, 0⟩ 3 =
      ((4/5 : ℚ) : ℝ) * Real.exp (-(0.1) * ((⌊(3 : ℚ) - 0⌋ : ℤ) : ℝ)) ∧
    get_current_confidence ⟨4/5, 0, 0⟩ 10 ≤ get_current_confidence ⟨4/5, 0, 0⟩ 3 :=
  current_confidence_decay ⟨4/5, 0, 0⟩ 3 10 (by norm_num) (by norm_num)

/-! ## C9 — query classification -/

/-- Claim C9 as stated is false: the query
"what did we decide about pricing" contains neither of the
decision-archaeology keywords "why did" / "decision" (it says "decide"),
so `from_query` classifies it as `general`, not `decision_archaeology`. -/
theorem decide_query_classifies_general :
    from_query "what did we decide about pricing" = QueryType.general ∧
      QueryType.general ≠ QueryType.decision_archaeology := by
  exact ⟨by decide, by decide⟩

/-- Claim C9, amended: "what did we decide about pricing" is classified
as `general` (the decision-archaeology rule needs the substring
"decision" or "why did"), and any query matching none of the
classification keywords falls back to `general` rather than failing. -/
theorem from_query_fallback_general (q : String)
    (h : matches_no_keyword q = true) :
    from_query q = QueryType.general ∧
      from_query "what did we decide about pricing" = QueryType.general := by
  refine ⟨?_, by decide⟩
  simp only [matches_no_keyword, Bool.not_eq_true', Bool.or_eq_false_iff] at h
  obtain ⟨⟨⟨⟨⟨⟨⟨⟨⟨⟨h1, h2⟩, h3⟩, h4⟩, h5⟩, h6⟩, h7⟩, h8⟩, h9⟩, h10⟩, h11⟩ := h
  simp only [from_query, h1, h2, h3, h4, h5, h6, h7, h8, h9, h10, h11,
    Bool.or_self, Bool.false_eq_true, if_false]

/-- Witness for `from_query_fallback_general` on a keyword-free query. -/
theorem from_query_fallback_general_witness :
    from_query "tell me about pricing" = QueryType.general ∧
      from_query "what did we decide about pricing" = QueryType.general :=
  from_query_fallback_general "tell me about pricing" (by decide)

/-! ## C10 — a sufficient initial retrieval is never deduplicated -/

/-- Claim C10: when the initial retrieval already returns 5 or more
chunks, the enrich loop runs zero iterations, so `_deduplicate` is never
called and the final aggregated (stable importance-sorted) result is a
permutation of the initial list — duplicate `chunk_id`s survive with
their multiplicities intact. -/
theorem process_query_keeps_duplicates
    (fetch : ℕ → List MemoryChunk → List MemoryChunk)
    (initial : List MemoryChunk) (h : 5 ≤ initial.length) :
    recursive_enrich fetch initial = (initial, 0) ∧
      List.Perm (process_query_chunks fetch initial) initial := by
  have henrich : recursive_enrich fetch initial = (initial, 0) := by
    rw [recursive_enrich, enrich_go, if_neg]
    simp only [needs_more_context, decide_eq_true_eq]
    omega
  refine ⟨henrich, ?_⟩
  rw [process_query_chunks, henrich]
  exact List.perm_insertionSort _ initial

/-- Witness for `process_query_keeps_duplicates` on a 5-chunk initial
retrieval containing the id "a" twice, against a collaborator that would
keep supplying fresh chunks. -/
theorem process_query_keeps_duplicates_witness :
    5 ≤ exDupInitial.length ∧
      (recursive_enrich exFreshFetch exDupInitial = (exDupInitial, 0) ∧
        List.Perm (process_query_chunks exFreshFetch exDupInitial) exDupInitial) :=
  ⟨by decide, process_query_keeps_duplicates exFreshFetch exDupInitial (by decide)⟩

/-! ## Version-chain counting machinery (for C3 and C6) -/

theorem addForward_chunk_id (n c : MemoryChunk) :
    (addForward n c).chunk_id = c.chunk_id := rfl

theorem addBackward_chunk_id (x c : MemoryChunk) :
    (addBackward x c).chunk_id = c.chunk_id := rfl

theorem addForward_cf_len (n c : MemoryChunk) :
    (addForward n c).creates_future.length = c.creates_future.length + 1 := by
  simp [addForward]

theorem addForward_rp_len (n c : MemoryChunk) :
    (addForward n c).references_past.length = c.references_past.length + 0 := rfl

theorem addForward_rp95_len (n c : MemoryChunk) :
    ((addForward n c).references_past.filter isV95).length =
      (c.references_past.filter isV95).length + 0 := rfl

theorem addBackward_cf_len (x c : MemoryChunk) :
    (addBackward x c).creates_future.length = c.creates_future.length + 0 := rfl

theorem addBackward_rp_len (x c : MemoryChunk) :
    (addBackward x c).references_past.length = c.references_past.length + 1 := by
  simp [addBackward]

theorem addBackward_rp95_len (x c : MemoryChunk) :
    ((addBackward x c).references_past.filter isV95).length =
      (c.references_past.filter isV95).length + 1 := by
  simp [addBackward, List.filter_append, isV95]

/-- Updating the chunk with a given id changes a per-chunk count `g` by
`k` times the multiplicity of that id. -/
theorem updateById_map_sum (g : MemoryChunk → ℕ) (id : String)
    (f : MemoryChunk → MemoryChunk) (k : ℕ) (hf : ∀ c, g (f c) = g c + k) :
    ∀ l : List MemoryChunk,
      ((updateById id f l).map g).sum =
        (l.map g).sum + k * ((l.map fun c => c.chunk_id).count id) := by
  intro l
  induction l with
  | nil => simp [updateById]
  | cons c cs ih =>
    simp only [updateById, List.map_cons, List.sum_cons] at ih ⊢
    rw [List.count_cons, ih]
    by_cases h : c.chunk_id = id
    · have hb : (c.chunk_id == id) = true := beq_iff_eq.mpr h
      rw [if_pos h, hf, if_pos hb]
      ring
    · have hne : (c.chunk_id == id) = false := beq_eq_false_iff_ne.mpr h
      have hb : ¬ ((c.chunk_id == id) = true) := by
        rw [hne]; exact Bool.false_ne_true
      rw [if_neg h, if_neg hb]
      ring

/-- Updating a chunk with an id-preserving function leaves the id map
unchanged. -/
theorem updateById_map_chunk_id (id : String) (f : MemoryChunk → MemoryChunk)
    (hf : ∀ c, (f c).chunk_id = c.chunk_id) (l : List MemoryChunk) :
    ((updateById id f l).map fun c => c.chunk_id) =
      (l.map fun c => c.chunk_id) := by
  induction l with
  | nil => rfl
  | cons c cs ih =>
    simp only [updateById, List.map_cons] at ih ⊢
    rw [ih]
    by_cases h : c.chunk_id = id
    · rw [if_pos h, hf]
    · rw [if_neg h]

/-- Updating a chunk with a skeleton-preserving function leaves the
skeleton map unchanged. -/
theorem updateById_map_strip (id : String) (f : MemoryChunk → MemoryChunk)
    (hf : ∀ c, stripLinks (f c) = stripLinks c) (l : List MemoryChunk) :
    ((updateById id f l).map stripLinks) = l.map stripLinks := by
  induction l with
  | nil => rfl
  | cons c cs ih =>
    simp only [updateById, List.map_cons] at ih ⊢
    rw [ih]
    by_cases h : c.chunk_id = id
    · rw [if_pos h, hf]
    · rw [if_neg h]

/-- One linking step per adjacent pair: when every chunk id named by the
pair list occurs exactly once, `linkPairs` keeps the id map and adds one
forward entry, one backward entry, and one 0.95-version-evolution
backward entry per pair. -/
theorem linkPairs_spec :
    ∀ (ps : List (MemoryChunk × MemoryChunk)) (acc : List MemoryChunk),
      (∀ p ∈ ps, ((acc.map fun c => c.chunk_id).count p.1.chunk_id = 1) ∧
                 ((acc.map fun c => c.chunk_id).count p.2.chunk_id = 1)) →
      (((linkPairs acc ps).map fun c => c.chunk_id) =
          (acc.map fun c => c.chunk_id)) ∧
      totalForward (linkPairs acc ps) = totalForward acc + ps.length ∧
      totalBackward (linkPairs acc ps) = totalBackward acc + ps.length ∧
      totalBackward95 (linkPairs acc ps) = totalBackward95 acc + ps.length := by
  intro ps
  induction ps with
  | nil =>
    intro acc _
    exact ⟨rfl, by simp [linkPairs], by simp [linkPairs], by simp [linkPairs]⟩
  | cons p rest ih =>
    intro acc h
    obtain ⟨cur, nxt⟩ := p
    have hcur := (h (cur, nxt) (List.mem_cons_self _ _)).1
    have hnxt := (h (cur, nxt) (List.mem_cons_self _ _)).2
    set acc1 := updateById cur.chunk_id (addForward nxt) acc with hacc1
    set acc2 := updateById nxt.chunk_id (addBackward cur) acc1 with hacc2
    have hids1 : (acc1.map fun c => c.chunk_id) = acc.map fun c => c.chunk_id :=
      updateById_map_chunk_id cur.chunk_id (addForward nxt)
        (fun c => addForward_chunk_id nxt c) acc
    have hids2 : (acc2.map fun c => c.chunk_id) = acc.map fun c => c.chunk_id := by
      rw [hacc2, updateById_map_chunk_id nxt.chunk_id (addBackward cur)
        (fun c => addBackward_chunk_id cur c) acc1, hids1]
    have hfw : totalForward acc2 = totalForward acc + 1 := by
      have s1 : totalForward acc1 = totalForward acc + 1 := by
        have := updateById_map_sum (fun c => c.creates_future.length)
          cur.chunk_id (addForward nxt) 1 (fun c => addForward_cf_len nxt c) acc
        simpa [totalForward, hcur] using this
      have s2 : totalForward acc2 = totalForward acc1 := by
        have := updateById_map_sum (fun c => c.creates_future.length)
          nxt.chunk_id (addBackward cur) 0 (fun c => addBackward_cf_len cur c) acc1
        simpa [totalForward] using this
      omega
    have hbw : totalBackward acc2 = totalBackward acc + 1 := by
      have s1 : totalBackward acc1 = totalBackward acc := by
        have := updateById_map_sum (fun c => c.references_past.length)
          cur.chunk_id (addForward nxt) 0 (fun c => addForward_rp_len nxt c) acc
        simpa [totalBackward] using this
      have s2 : totalBackward acc2 = totalBackward acc1 + 1 := by
        have := updateById_map_sum (fun c => c.references_past.length)
          nxt.chunk_id (addBackward cur) 1 (fun c => addBackward_rp_len cur c) acc1
        have hc1 : ((acc1.map fun c => c.chunk_id).count nxt.chunk_id) = 1 := by
          rw [hids1]; exact hnxt
        simpa [totalBackward, hc1] using this
      omega
    have hbw95 : totalBackward95 acc2 = totalBackward95 acc + 1 := by
      have s1 : totalBackward95 acc1 = totalBackward95 acc := by
        have := updateById_map_sum (fun c => (c.references_past.filter isV95).length)
          cur.chunk_id (addForward nxt) 0 (fun c => addForward_rp95_len nxt c) acc
        simpa [totalBackward95] using this
      have s2 : totalBackward95 acc2 = totalBackward95 acc1 + 1 := by
        have := updateById_map_sum (fun c => (c.references_past.filter isV95).length)
          nxt.chunk_id (addBackward cur) 1 (fun c => addBackward_rp95_len cur c) acc1
        have hc1 : ((acc1.map fun c => c.chunk_id).count nxt.chunk_id) = 1 := by
          rw [hids1]; exact hnxt
        simpa [totalBackward95, hc1] using this
      omega
    have hrest : ∀ p ∈ rest,
        ((acc2.map fun c => c.chunk_id).count p.1.chunk_id = 1) ∧
        ((acc2.map fun c => c.chunk_id).count p.2.chunk_id = 1) := by
      intro p hp
      rw [hids2]
      exact h p (List.mem_cons_of_mem _ hp)
    obtain ⟨i2, f2, b2, b952⟩ := ih acc2 hrest
    refine ⟨?_, ?_, ?_, ?_⟩
    · rw [linkPairs, i2, hids2]
    · rw [linkPairs, f2, hfw, List.length_cons]; omega
    · rw [linkPairs, b2, hbw, List.length_cons]; omega
    · rw [linkPairs, b952, hbw95, List.length_cons]; omega

/-- Folding further equal keys over the singleton accumulator is a
no-op. -/
theorem dedupFirst_const_aux (a : String) :
    ∀ xs : List String, (∀ x ∈ xs, x = a) →
      xs.foldl (fun acc x => if x ∈ acc then acc else acc ++ [x]) [a] = [a] := by
  intro xs
  induction xs with
  | nil => intro _; rfl
  | cons x rest ih =>
    intro hall
    have hx : x = a := hall x (List.mem_cons_self _ _)
    rw [List.foldl_cons, if_pos (by simp [hx])]
    exact ih fun y hy => hall y (List.mem_cons_of_mem _ hy)

/-- A nonempty list of equal keys deduplicates to the single key. -/
theorem dedupFirst_const (a : String) :
    ∀ xs : List String, xs ≠ [] → (∀ x ∈ xs, x = a) → dedupFirst xs = [a] := by
  intro xs
  match xs with
  | [] => intro h _; exact absurd rfl h
  | x :: rest =>
    intro _ hall
    have hx : x = a := hall x (List.mem_cons_self _ _)
    rw [dedupFirst, List.foldl_cons, if_neg (by simp), List.nil_append, hx]
    exact dedupFirst_const_aux a rest fun y hy => hall y (List.mem_cons_of_mem _ hy)

theorem adjPairs_length (xs : List MemoryChunk) :
    (adjPairs xs).length = xs.length - 1 := by
  simp only [adjPairs, List.length_zip, List.length_tail]
  omega

/-- On a nonempty single-artifact chunk list with distinct ids,
`_identify_version_chains` preserves the id map and adds exactly
`length - 1` forward entries, `length - 1` backward entries, all of the
latter version-evolution entries of confidence 0.95. -/
theorem ivc_single_artifact (l : List MemoryChunk) (a : String)
    (hvi : ∀ c ∈ l, c.version_info.isSome = true)
    (ha : ∀ c ∈ l, artifactKey c = a)
    (hid : (l.map fun c => c.chunk_id).Nodup)
    (hne : l ≠ []) :
    (((identify_version_chains l).map fun c => c.chunk_id) =
        l.map fun c => c.chunk_id) ∧
    totalForward (identify_version_chains l) = totalForward l + (l.length - 1) ∧
    totalBackward (identify_version_chains l) = totalBackward l + (l.length - 1) ∧
    totalBackward95 (identify_version_chains l) =
      totalBackward95 l + (l.length - 1) := by
  have hfil : l.filter (fun c => c.version_info.isSome) = l :=
    List.filter_eq_self.mpr hvi
  have hdedup : dedupFirst (l.map artifactKey) = [a] := by
    apply dedupFirst_const
    · simpa using hne
    · intro x hx
      obtain ⟨c, hc, he⟩ := List.mem_map.mp hx
      rw [← he]; exact ha c hc
  have hgroupfil : (l.filter fun c => decide (artifactKey c = a)) = l := by
    apply List.filter_eq_self.mpr
    intro c hc
    simpa using ha c hc
  have hivc : identify_version_chains l = linkPairs l (adjPairs (groupFor l a)) := by
    simp only [identify_version_chains, hfil, hdedup, List.foldl_cons, List.foldl_nil]
  have hperm : List.Perm (groupFor l a) l := by
    rw [groupFor, hgroupfil, sortByVersion]
    exact List.perm_insertionSort _ l
  have hcount : ∀ p ∈ adjPairs (groupFor l a),
      ((l.map fun c => c.chunk_id).count p.1.chunk_id = 1) ∧
      ((l.map fun c => c.chunk_id).count p.2.chunk_id = 1) := by
    intro p hp
    have h1 : p.1 ∈ groupFor l a := (List.of_mem_zip hp).1
    have h2 : p.2 ∈ (groupFor l a).tail := (List.of_mem_zip hp).2
    have h2' : p.2 ∈ groupFor l a := (List.tail_sublist _).subset h2
    have m1 : p.1 ∈ l := hperm.mem_iff.mp h1
    have m2 : p.2 ∈ l := hperm.mem_iff.mp h2'
    exact ⟨List.count_eq_one_of_mem hid (List.mem_map_of_mem _ m1),
           List.count_eq_one_of_mem hid (List.mem_map_of_mem _ m2)⟩
  have hlen : (adjPairs (groupFor l a)).length = l.length - 1 := by
    rw [adjPairs_length, hperm.length_eq]
  obtain ⟨hi, hf, hb, hb95⟩ := linkPairs_spec (adjPairs (groupFor l a)) l hcount
  rw [hlen] at hf hb hb95
  rw [hivc]
  exact ⟨hi, hf, hb, hb95⟩

theorem addForward_strip (n c : MemoryChunk) :
    stripLinks (addForward n c) = stripLinks c := rfl

theorem addBackward_strip (x c : MemoryChunk) :
    stripLinks (addBackward x c) = stripLinks c := rfl

theorem linkPairs_map_strip :
    ∀ (ps : List (MemoryChunk × MemoryChunk)) (acc : List MemoryChunk),
      ((linkPairs acc ps).map stripLinks) = acc.map stripLinks := by
  intro ps
  induction ps with
  | nil => intro acc; rfl
  | cons p rest ih =>
    intro acc
    obtain ⟨cur, nxt⟩ := p
    rw [linkPairs, ih,
      updateById_map_strip nxt.chunk_id (addBackward cur)
        (fun c => addBackward_strip cur c) _,
      updateById_map_strip cur.chunk_id (addForward nxt)
        (fun c => addForward_strip nxt c) _]

theorem foldl_linkPairs_strip (g : String → List (MemoryChunk × MemoryChunk)) :
    ∀ (arts : List String) (acc : List MemoryChunk),
      (((arts.foldl (fun acc a => linkPairs acc (g a)) acc).map stripLinks) =
        acc.map stripLinks) := by
  intro arts
  induction arts with
  | nil => intro acc; rfl
  | cons a rest ih =>
    intro acc
    rw [List.foldl_cons, ih, linkPairs_map_strip]

/-- `_identify_version_chains` only appends to the two link lists: ids
and version info are untouched. -/
theorem ivc_map_strip (l : List MemoryChunk) :
    ((identify_version_chains l).map stripLinks) = l.map stripLinks := by
  simp only [identify_version_chains]
  exact foldl_linkPairs_strip _ _ l

theorem ivc_map_chunk_id (l : List MemoryChunk) :
    (((identify_version_chains l).map fun c => c.chunk_id) =
      l.map fun c => c.chunk_id) := by
  have h := congrArg (List.map Prod.fst) (ivc_map_strip l)
  simpa [List.map_map, Function.comp, stripLinks] using h

theorem ivc_length (l : List MemoryChunk) :
    (identify_version_chains l).length = l.length := by
  have h := congrArg List.length (ivc_map_strip l)
  simpa using h

theorem ivc_version_info (l : List MemoryChunk) :
    ∀ c' ∈ identify_version_chains l, ∃ c ∈ l, c'.version_info = c.version_info := by
  intro c' hc'
  have hm : stripLinks c' ∈ (identify_version_chains l).map stripLinks :=
    List.mem_map_of_mem _ hc'
  rw [ivc_map_strip] at hm
  obtain ⟨c, hc, he⟩ := List.mem_map.mp hm
  exact ⟨c, hc, (congrArg Prod.snd he).symm⟩

/-! ## C3 — version-chain building is not idempotent -/

/-- Claim C3 as stated is false: on the unchanged two-version chain
`exChain`, one run produces one forward link and a second run appends
the same link again (2 entries), so the outputs differ. -/
theorem version_chains_rerun_counterexample :
    ((identify_version_chains exChain).map fun c => c.creates_future.length) =
        [1, 0] ∧
    ((identify_version_chains (identify_version_chains exChain)).map
        fun c => c.creates_future.length) = [2, 0] ∧
    identify_version_chains (identify_version_chains exChain) ≠
      identify_version_chains exChain := by
  have ha : ((identify_version_chains exChain).map
      fun c => c.creates_future.length) = [1, 0] := by decide
  have hb : ((identify_version_chains (identify_version_chains exChain)).map
      fun c => c.creates_future.length) = [2, 0] := by decide
  refine ⟨ha, hb, ?_⟩
  intro h
  have h2 := congrArg (List.map fun c => c.creates_future.length) h
  exact (by decide : ([2, 0] : List ℕ) ≠ [1, 0]) (hb.symm.trans (h2.trans ha))

/-- Claim C3, amended: version-chain building is deterministic but NOT
idempotent — the links are appended without clearing, so running it
twice on the same single-artifact chunk set appends every
version-evolution link a second time: after one run the chunk set
carries `k-1` extra forward and backward entries, after two runs
`2*(k-1)`. -/
theorem version_chains_rerun_duplicates (l : List MemoryChunk) (a : String)
    (hvi : ∀ c ∈ l, c.version_info.isSome = true)
    (ha : ∀ c ∈ l, artifactKey c = a)
    (hid : (l.map fun c => c.chunk_id).Nodup)
    (hk : 2 ≤ l.length) :
    totalForward (identify_version_chains l) = totalForward l + (l.length - 1) ∧
    totalBackward (identify_version_chains l) = totalBackward l + (l.length - 1) ∧
    totalForward (identify_version_chains (identify_version_chains l)) =
      totalForward l + 2 * (l.length - 1) ∧
    totalBackward (identify_version_chains (identify_version_chains l)) =
      totalBackward l + 2 * (l.length - 1) := by
  have hne : l ≠ [] := by
    intro e
    rw [e] at hk
    simp at hk
  obtain ⟨_, f1, b1, _⟩ := ivc_single_artifact l a hvi ha hid hne
  have hvi2 : ∀ c' ∈ identify_version_chains l, c'.version_info.isSome = true := by
    intro c' hc'
    obtain ⟨c, hc, he⟩ := ivc_version_info l c' hc'
    rw [he]
    exact hvi c hc
  have ha2 : ∀ c' ∈ identify_version_chains l, artifactKey c' = a := by
    intro c' hc'
    obtain ⟨c, hc, he⟩ := ivc_version_info l c' hc'
    have hkey : artifactKey c' = artifactKey c := by
      simp [artifactKey, he]
    rw [hkey]
    exact ha c hc
  have hid2 : ((identify_version_chains l).map fun c => c.chunk_id).Nodup := by
    rw [ivc_map_chunk_id]
    exact hid
  have hne2 : identify_version_chains l ≠ [] := by
    intro e
    have := ivc_length l
    rw [e] at this
    simp at this
    rw [← this] at hk
    simp at hk
  obtain ⟨_, f2, b2, _⟩ :=
    ivc_single_artifact (identify_version_chains l) a hvi2 ha2 hid2 hne2
  rw [ivc_length l] at f2 b2
  refine ⟨f1, b1, ?_, ?_⟩ <;> omega

/-- Witness for `version_chains_rerun_duplicates` on the two-version
chain `exChain`. -/
theorem version_chains_rerun_duplicates_witness :
    2 ≤ exChain.length ∧
      (totalForward (identify_version_chains exChain) =
          totalForward exChain + (exChain.length - 1) ∧
        totalBackward (identify_version_chains exChain) =
          totalBackward exChain + (exChain.length - 1) ∧
        totalForward (identify_version_chains (identify_version_chains exChain)) =
          totalForward exChain + 2 * (exChain.length - 1) ∧
        totalBackward (identify_version_chains (identify_version_chains exChain)) =
          totalBackward exChain + 2 * (exChain.length - 1)) :=
  ⟨by decide, version_chains_rerun_duplicates exChain "schema"
    (by decide) (by decide) (by decide) (by decide)⟩

/-! ## C6 — link counts and the fixed 0.95 confidence -/

/-- Claim C6 as stated is false for the duplicated builder in
temporal/temporal_extractor.py: on the same two-version chain its
backward version-evolution entry carries confidence 1.0, not 0.95. -/
theorem version_links_T_confidence_counterexample :
    ((identify_version_chains_T exTChain).map
        fun c => c.references_past.map fun e => e.confidence) = [[], [1.0]] ∧
      ((1.0 : ℚ) ≠ 0.95) := by
  constructor
  · rfl
  · norm_num

/-- Claim C6, amended: for the memory_factory builder, a group of
`k ≥ 2` same-artifact chunks with distinct ids gains exactly `k-1`
forward and `k-1` backward version-evolution entries, and every added
backward entry carries confidence exactly 0.95 (the duplicated prototype
builder instead stamps its backward links with confidence 1.0). -/
theorem version_links_count_confidence (l : List MemoryChunk) (a : String)
    (hvi : ∀ c ∈ l, c.version_info.isSome = true)
    (ha : ∀ c ∈ l, artifactKey c = a)
    (hid : (l.map fun c => c.chunk_id).Nodup)
    (hk : 2 ≤ l.length) :
    totalForward (identify_version_chains l) = totalForward l + (l.length - 1) ∧
    totalBackward (identify_version_chains l) = totalBackward l + (l.length - 1) ∧
    totalBackward95 (identify_version_chains l) =
      totalBackward95 l + (l.length - 1) := by
  have hne : l ≠ [] := by
    intro e
    rw [e] at hk
    simp at hk
  obtain ⟨_, hf, hb, hb95⟩ := ivc_single_artifact l a hvi ha hid hne
  exact ⟨hf, hb, hb95⟩

/-- Witness for `version_links_count_confidence` on the two-version
chain `exChain`: one forward link, one backward link, the backward link
a 0.95 version-evolution entry. -/
theorem version_links_count_confidence_witness :
    2 ≤ exChain.length ∧
      (totalForward (identify_version_chains exChain) =
          totalForward exChain + (exChain.length - 1) ∧
        totalBackward (identify_version_chains exChain) =
          totalBackward exChain + (exChain.length - 1) ∧
        totalBackward95 (identify_version_chains exChain) =
          totalBackward95 exChain + (exChain.length - 1)) :=
  ⟨by decide, version_links_count_confidence exChain "schema"
    (by decide) (by decide) (by decide) (by decide)⟩

/-! ## C1, C4, C5 — candidate filtering and scoring -/

/-- The word sets of "caching decision" against itself overlap fully. -/
theorem jaccard_caching_self :
    jaccard "caching decision" "caching decision" = 1 := by
  have h1 : ((splitWords (lowerStr "caching decision")).toFinset ∩
      (splitWords (lowerStr "caching decision")).toFinset).card = 2 := by decide
  have h2 : ((splitWords (lowerStr "caching decision")).toFinset ∪
      (splitWords (lowerStr "caching decision")).toFinset).card = 2 := by decide
  rw [jaccard, h1, h2]
  norm_num

/-- Claim C1 is the stated intent, but the code violates it: the
one-sided prefilter `time_diff < 168` admits `exFutureCand`, whose
timestamp (hour 1000) is strictly later than the referencing chunk's
(hour 0); scoring then selects it with a score above the 0.7 resolution
threshold, so `_resolve_implicit_references` would append it to
`references_past` as a forward-in-time resolution. -/
theorem future_candidate_admitted_and_resolved :
    find_reference_candidates exRef exFutureIndex exQChunk = [exFutureCand] ∧
    exQChunk.timestamp = 0 ∧
    exFutureCand.timestamp = some 1000 ∧
    score_reference_candidates exRef [exFutureCand] exQChunk =
      some (exFutureCand, score_candidate exRef exQChunk exFutureCand) ∧
    score_candidate exRef exQChunk exFutureCand > 0.7 := by
  refine ⟨?_, rfl, rfl, ?_, ?_⟩
  · norm_num [find_reference_candidates, exRef, exFutureIndex, exQChunk,
      exFutureCand, List.lookup, List.filter]
  · simp [score_reference_candidates, best_scored]
  · have hs : score_candidate exRef exQChunk exFutureCand =
        ((1 : ℚ) : ℝ) * 0.5 +
          Real.exp (-(0.01) * ((|(0 : ℚ) - 1000| : ℚ) : ℝ)) * 0.3 + 0.2 := by
      simp [score_candidate, exFutureCand, exQChunk, exRef, jaccard_caching_self]
    rw [hs]
    have habs : (|(0 : ℚ) - 1000| : ℚ) = 1000 := by norm_num
    rw [habs]
    have hpos : (0 : ℝ) < Real.exp (-(0.01) * ((1000 : ℚ) : ℝ)) :=
      Real.exp_pos _
    push_cast at hpos ⊢
    nlinarith [hpos]

/-- Claim C4 as stated is false: `exOldCand` sits 169 hours before the
referencing chunk, just beyond the 168-hour window, and the prefilter
drops it from the candidate pool entirely — it is never scored. -/
theorem old_candidate_excluded_counterexample :
    find_reference_candidates exRef exOldIndex exQChunk = [] ∧
    exOldCand.timestamp = some (-169) ∧
    168 < exQChunk.timestamp - (-169) := by
  refine ⟨?_, rfl, by norm_num [exQChunk]⟩
  norm_num [find_reference_candidates, exRef, exOldIndex, exQChunk,
    exOldCand, List.lookup, List.filter]

/-- Claim C4, amended: the 168-hour window is a hard cutoff, not a
tunable refinement — every timestamped candidate admitted to the pool
satisfies `chunk.timestamp - candidate.timestamp < 168` hours, so
candidates older than that are excluded before scoring (only
timestamp-less candidates bypass the check). -/
theorem admitted_candidates_within_window (ref : ImplicitReference)
    (index : List (String × List Candidate)) (chunk : MemoryChunk)
    (candidate : Candidate) (ts : ℚ)
    (hmem : candidate ∈ find_reference_candidates ref index chunk)
    (hts : candidate.timestamp = some ts) :
    chunk.timestamp - ts < 168 := by
  unfold find_reference_candidates at hmem
  cases hl : index.lookup ref.reference_type with
  | none => rw [hl] at hmem; simp at hmem
  | some pool =>
    rw [hl] at hmem
    have hmem' := (List.take_subset _ _) hmem
    have hp := List.of_mem_filter hmem'
    rw [hts] at hp
    simpa using hp

/-- Witness for `admitted_candidates_within_window`: a candidate 100
hours old is admitted, and indeed 100 < 168. -/
theorem admitted_candidates_within_window_witness :
    exQChunk.timestamp - (-100) < 168 :=
  admitted_candidates_within_window exRef exRecentIndex exQChunk exRecentCand
    (-100)
    (by norm_num [find_reference_candidates, exRef, exRecentIndex, exQChunk,
      exRecentCand, List.lookup, List.filter])
    rfl

/-- Claim C5 as stated is false on a timestamp-less candidate: the code
simply omits the temporal term and keeps weights 0.5 and 0.2 (score
0.7 for a fully matching same-speaker candidate), while the spec's
renormalized weights 0.5/0.7 and 0.2/0.7 would give 1. -/
theorem score_no_renormalization_counterexample :
    score_candidate exRef exQChunk exNoTsCand = 0.7 ∧
    spec_composite_score exRef exQChunk exNoTsCand = 1 ∧
    (0.7 : ℝ) ≠ 1 := by
  refine ⟨?_, ?_, by norm_num⟩
  · have hs : score_candidate exRef exQChunk exNoTsCand =
        ((1 : ℚ) : ℝ) * 0.5 + 0 + 0.2 := by
      simp [score_candidate, exNoTsCand, exQChunk, exRef, jaccard_caching_self]
    rw [hs]
    norm_num
  · have hs : spec_composite_score exRef exQChunk exNoTsCand =
        (0.5 / 0.7) * ((1 : ℚ) : ℝ) + (0.2 / 0.7) * 1 := by
      simp [spec_composite_score, exNoTsCand, exQChunk, exRef,
        jaccard_caching_self]
    rw [hs]
    norm_num

/-- Claim C5, amended: for a candidate with content, the code's score is
`0.5 * jaccard + 0.3 * exp(-0.01 * |hours|) + 0.2 * same_speaker`, and
when the candidate has no timestamp the temporal term is omitted with
the remaining weights kept as they are (no renormalization). -/
theorem score_formula_unrenormalized (ref : ImplicitReference)
    (chunk : MemoryChunk) (candidate : Candidate) (s : String)
    (hc : candidate.content = some s) :
    score_candidate ref chunk candidate =
      spec_score_unrenormalized ref chunk candidate := by
  unfold score_candidate spec_score_unrenormalized
  rw [hc]
  rcases hts : candidate.timestamp with _ | ts <;>
    by_cases hsp : candidate.speaker = some chunk.speaker <;>
      simp [hts, hsp] <;> ring

/-- Witness for `score_formula_unrenormalized` at the concrete
timestamped candidate `exFutureCand`. -/
theorem score_formula_unrenormalized_witness :
    score_candidate exRef exQChunk exFutureCand =
      spec_score_unrenormalized exRef exQChunk exFutureCand :=
  score_formula_unrenormalized exRef exQChunk exFutureCand "caching decision" rfl
